import Mathlib

/-!
# Verification of the D-Model-Runner configuration and index-cache layer

Shallow embedding of the configuration subsystem (`dmr/config/manager.py`,
`dmr/config/env.py`, `dmr/config/parser.py`, `dmr/utils/helpers.py`) and the
conversation index cache (`dmr/storage/index_cache.py`).

Modelling conventions:
* Python dicts are insertion-ordered association lists with unique keys;
  assignment `d[k] = v` is `insertKey` (replace in place if the key is
  present, append otherwise), `d.pop(k, None)` is `popKey`.
* Python/JSON values are the inductive `Value`; float literals are carried
  verbatim as strings (`Value.vFloat "0.7"`) since the embedded code never
  performs arithmetic on them.
* Wall-clock times and file mtimes are naturals (seconds).
* Python string operations are re-implemented over the character list of a
  `String` (`pyLower`, `pySplitDot`, `pyStartsWith`, `strIn`) so that the
  kernel can evaluate them; on the ASCII data the code handles they agree
  with `str.lower`, `str.split`, `str.startswith` and the `in` operator.
* Raising an exception is modelled with `Except`/`Option` results.
-/

namespace DMR

/-- A Python/JSON value as it occurs in configuration trees and conversation
documents. -/
inductive Value where
  | vStr (s : String)
  | vInt (n : Int)
  | vFloat (lit : String)
  | vBool (b : Bool)
  | vList (items : List Value)
  | vDict (entries : List (String × Value))

/-- Python `d[k]`: the value bound to the first occurrence of the key in an
insertion-ordered dict. -/
def lookupKey {α : Type} : List (String × α) → String → Option α
  | [], _ => none
  | (k, v) :: rest, key => if k = key then some v else lookupKey rest key

/-- Python `k in d`. -/
def containsKey {α : Type} (d : List (String × α)) (key : String) : Bool :=
  (lookupKey d key).isSome

/-- Python `d[k] = v` on an insertion-ordered dict: replace the first binding
of the key in place, or append a new binding at the end. -/
def insertKey {α : Type} : List (String × α) → String → α → List (String × α)
  | [], key, v => [(key, v)]
  | (k, w) :: rest, key, v =>
    if k = key then (k, v) :: rest else (k, w) :: insertKey rest key v

/-- Python `d.pop(k, None)`: drop the first binding of the key, if any. -/
def popKey {α : Type} : List (String × α) → String → List (String × α)
  | [], _ => []
  | (k, w) :: rest, key => if k = key then rest else (k, w) :: popKey rest key

/-! ## Python string primitives (character-list based, kernel-evaluable) -/

/-- Python `s.lower()`. `Char.toLower` lower-cases exactly the ASCII range,
which covers every string the embedded code lower-cases. -/
def pyLower (s : String) : String := String.mk (s.data.map Char.toLower)

/-- Helper for `pySplitDot`: accumulates the current segment in reverse. -/
def splitDotAux (sep : Char) : List Char → List Char → List (List Char)
  | [], acc => [acc.reverse]
  | c :: rest, acc =>
    if c = sep then acc.reverse :: splitDotAux sep rest []
    else splitDotAux sep rest (c :: acc)

/-- Python `path.split(".")` (single-character separator, as used by
`safe_get_nested` and `EnvironmentHandler._set_nested_value`). -/
def pySplitDot (s : String) : List String :=
  (splitDotAux '.' s.data []).map String.mk

/-- Python `s.startswith(t)`. -/
def pyStartsWith (s t : String) : Bool := t.data.isPrefixOf s.data

/-- Python `s[n:]` for a non-negative index. -/
def pyDrop (s : String) (n : Nat) : String := String.mk (s.data.drop n)

/-- Contiguous-sublist test on character lists, with early exit at each
position. -/
def infixOf (needle : List Char) : List Char → Bool
  | [] => needle.isEmpty
  | c :: rest => needle.isPrefixOf (c :: rest) || infixOf needle rest

/-- Python substring containment `needle in hay`. -/
def strIn (needle hay : String) : Bool := infixOf needle.data hay.data

/-! ## `dmr/utils/helpers.py` -/

mutual
/-- The per-key combination step inside `merge_configs` (helpers.py line 58):
if both the existing and the overriding value are dicts, recurse; in every
other case the overriding value wins. -/
def mergeVal : Option Value → Value → Value
  | some (Value.vDict bd), Value.vDict od => Value.vDict (merge_configs bd od)
  | _, v => v

/-- `merge_configs(base_config, override_config)`: start from a copy of the
base, then for each key of the override in order, deep-merge when both sides
hold a dict at the key, otherwise overwrite. -/
def merge_configs : List (String × Value) → List (String × Value) → List (String × Value)
  | result, [] => result
  | result, (k, v) :: rest =>
    merge_configs (insertKey result k (mergeVal (lookupKey result k) v)) rest
end

/-- Step-by-step traversal behind `safe_get_nested`: starting from a value,
follow the path segments; `none` models the KeyError (segment absent from
the dict) or TypeError (indexing a non-dict with a string) that the
source's `try` block catches. -/
def traverseKeys : Value → List String → Option Value
  | v, [] => some v
  | Value.vDict d, k :: ks =>
    (match lookupKey d k with
     | some v => traverseKeys v ks
     | none => none)
  | _, _ :: _ => none

/-- `safe_get_nested(data, path, default)`: split the path on dots, walk the
nested dicts, and return the default if any step raises. -/
def safe_get_nested (data : List (String × Value)) (path : String) (default : Value) : Value :=
  match traverseKeys (Value.vDict data) (pySplitDot path) with
  | some v => v
  | none => default

/-! ## `dmr/config/env.py` — `EnvironmentHandler` -/

/-- The target types `_convert_env_value` is called with. The embedded call
site (`load_env_vars`) always uses the default target `str`; the `float`
branch and the generic fallback of the source are therefore unreachable
from the embedded code and are not modelled. -/
inductive PyType where
  | tStr
  | tBool
  | tInt

/-- `EnvironmentHandler._convert_env_value(value, target_type)`: identity
for `str`; membership of the lower-cased value in `("true", "1", "yes",
"on")` for `bool`; `int(value)` with fallback `0` for `int` (Python integer
parsing modelled by `String.toInt?`). -/
def convert_env_value (value : String) : PyType → Value
  | PyType.tStr => Value.vStr value
  | PyType.tBool => Value.vBool (["true", "1", "yes", "on"].contains (pyLower value))
  | PyType.tInt =>
    match value.toInt? with
    | some n => Value.vInt n
    | none => Value.vInt 0

/-- Loop body of `EnvironmentHandler.load_env_vars`: for each environment
entry whose key starts with the `DMR_` marker, strip the first four
characters, lower-case the rest, and store the value converted with the
default target type `str`. -/
def loadEnvVarsAux : List (String × Value) → List (String × String) → List (String × Value)
  | acc, [] => acc
  | acc, (k, v) :: rest =>
    loadEnvVarsAux
      (if pyStartsWith k "DMR_" then
        insertKey acc (pyLower (pyDrop k 4)) (convert_env_value v PyType.tStr)
      else acc) rest

/-- `EnvironmentHandler.load_env_vars()`, with `os.environ` passed in as an
explicit association list. -/
def load_env_vars (env : List (String × String)) : List (String × Value) :=
  loadEnvVarsAux [] env

/-- Recursion behind `EnvironmentHandler._set_nested_value`: walk the dotted
path, creating empty dicts for absent intermediate keys, and assign at the
last segment. At the only embedded call site (`get_config_overrides`) an
intermediate key is always either absent or bound to a dict, so the case in
which Python would hit a non-dict intermediate value is unreachable. -/
def setNestedPath : List (String × Value) → List String → Value → List (String × Value)
  | d, [], _ => d
  | d, [k], v => insertKey d k v
  | d, k :: ks, v =>
    let sub :=
      match lookupKey d k with
      | some (Value.vDict sd) => sd
      | _ => []
    insertKey d k (Value.vDict (setNestedPath sub ks v))

/-- `EnvironmentHandler._set_nested_value(data, path, value)`. -/
def set_nested_value (data : List (String × Value)) (path : String) (v : Value) :
    List (String × Value) :=
  setNestedPath data (pySplitDot path) v

/-- The fixed `mapping` dict of `EnvironmentHandler.get_config_overrides`
(env.py lines 118 to 126), in source order. -/
def configPathMapping : List (String × String) :=
  [("base_url", "api.base_url"),
   ("api_key", "api.key"),
   ("default_model", "api.models.default"),
   ("max_tokens", "api.models.max_tokens"),
   ("temperature", "api.models.temperature"),
   ("debug", "logging.debug"),
   ("log_level", "logging.level")]

/-- `EnvironmentHandler.get_config_overrides()`: load the `DMR_`-prefixed
environment variables, then place each mapped key at its dotted
configuration path. -/
def get_config_overrides (env : List (String × String)) : List (String × Value) :=
  let env_vars := load_env_vars env
  configPathMapping.foldl
    (fun acc m =>
      match lookupKey env_vars m.1 with
      | some v => set_nested_value acc m.2 v
      | none => acc) []

/-! ## `dmr/config/parser.py` and the file cache of `dmr/config/manager.py` -/

/-- The state of one configuration file on disk, as seen by one load:
absent, present but failing to parse as YAML/JSON, or parsed to a dict.
The per-path mtime cache of `ConfigManager._file_cache` always hands back
the same parsed tree for an unchanged file, so it is transparent to the
claims and not modelled separately. -/
inductive ConfigFile where
  | absent
  | invalid
  | parsed (tree : List (String × Value))

/-- `ConfigParser.load_config_file`: raises `FileNotFoundError` for a
missing file and `ValueError` for an unparseable one, otherwise returns the
parsed dict. -/
def load_config_file : ConfigFile → Except String (List (String × Value))
  | ConfigFile.absent => Except.error "Configuration file not found"
  | ConfigFile.invalid => Except.error "ValueError: parse error"
  | ConfigFile.parsed t => Except.ok t

/-- `ConfigManager._get_cached_file_config`: returns `None` when the file
does not exist, and — via its `except Exception: return None` branch
(manager.py lines 264 to 265) — also returns `None` when
`ConfigParser.load_config_file` raises a parse error. -/
def get_cached_file_config (f : ConfigFile) : Option (List (String × Value)) :=
  match f with
  | ConfigFile.absent => none
  | _ =>
    match load_config_file f with
    | Except.ok t => some t
    | Except.error _ => none

/-- `ConfigParser.validate_config_structure`: the merged tree must contain a
section `api` that is a dict and holds a `base_url` key; each failure is a
raised `ValueError`. -/
def validate_config_structure (config : List (String × Value)) : Except String Bool :=
  match lookupKey config "api" with
  | none => Except.error "Missing required configuration section: api"
  | some (Value.vDict api) =>
    if containsKey api "base_url" then Except.ok true
    else Except.error "Missing required field: api.base_url"
  | some _ => Except.error "API configuration must be a dictionary"

/-! ## `dmr/config/manager.py` — `ConfigManager` -/

/-- The hard-coded `default_config` dict of
`ConfigManager._load_default_config_cached` (manager.py lines 283 to 330),
transcribed verbatim. -/
def builtin_default_config : List (String × Value) :=
  [("api", Value.vDict
     [("base_url", Value.vStr "http://localhost:12434/engines/llama.cpp/v1/"),
      ("key", Value.vStr "anything"),
      ("timeout", Value.vInt 30),
      ("client", Value.vDict
        [("timeout", Value.vFloat "30.0"),
         ("max_retries", Value.vInt 2),
         ("connection_check", Value.vBool true)]),
      ("models", Value.vDict
        [("default", Value.vStr "ai/gemma3"),
         ("available", Value.vList [Value.vStr "ai/gemma3", Value.vStr "ai/qwen3"]),
         ("defaults", Value.vDict
           [("max_tokens", Value.vInt 500),
            ("temperature", Value.vFloat "0.7"),
            ("top_p", Value.vFloat "0.9"),
            ("stream", Value.vBool true)]),
         ("configs", Value.vDict
           [("ai_gemma3", Value.vDict
              [("description", Value.vStr "General conversation model"),
               ("max_tokens", Value.vInt 500)]),
            ("ai_qwen3", Value.vDict
              [("description", Value.vStr "Reasoning model with thinking tokens"),
               ("max_tokens", Value.vInt 800)])])])]),
   ("error_handling", Value.vDict
     [("show_detailed_errors", Value.vBool true),
      ("suggest_fixes", Value.vBool true),
      ("retry_on_timeout", Value.vBool true)]),
   ("logging", Value.vDict
     [("level", Value.vStr "INFO"),
      ("debug", Value.vBool false)]),
   ("ui", Value.vDict
     [("show_model_info", Value.vBool true),
      ("stream_responses", Value.vBool true),
      ("max_history", Value.vInt 100)])]

/-- `ConfigManager._load_default_config_cached`: built-in defaults, merged
with the default file when that file loads to a truthy (non-empty) dict.
`if file_config:` is falsy both for `None` and for an empty dict. -/
def load_default_config_cached (defaultFile : ConfigFile) : List (String × Value) :=
  match get_cached_file_config defaultFile with
  | some fc => if fc.isEmpty then builtin_default_config
               else merge_configs builtin_default_config fc
  | none => builtin_default_config

/-- `ConfigManager._load_profile_config_cached`: no profile overlay for the
default profile; otherwise the first candidate profile file that loads to a
truthy dict (the two search directories and two filename candidates of the
source are collapsed into the single `ConfigFile` representing that first
hit, or `absent` when none exists). -/
def load_profile_config_cached (profile : String) (profileFile : ConfigFile) :
    Option (List (String × Value)) :=
  if profile = "default" then none
  else
    match get_cached_file_config profileFile with
    | some c => if c.isEmpty then none else some c
    | none => none

/-- `ConfigManager.load_config(profile)` (manager.py lines 42 to 81): merge
built-in defaults with the default file, then the profile file, then the
environment overrides (each later layer winning), then validate. The
`envOverrides` argument is the dict produced by
`_get_env_overrides_cached`, i.e. `EnvironmentHandler.get_config_overrides`
evaluated at the last environment check (the 30-second TTL decides only
which environment snapshot is used). An error is the `ValueError` of
validation propagating out of `load_config`. -/
def load_config (defaultFile profileFile : ConfigFile) (profile : String)
    (envOverrides : List (String × Value)) : Except String (List (String × Value)) :=
  let config := load_default_config_cached defaultFile
  let config :=
    match load_profile_config_cached profile profileFile with
    | some pc => merge_configs config pc
    | none => config
  let config := if envOverrides.isEmpty then config else merge_configs config envOverrides
  match validate_config_structure config with
  | Except.error e => Except.error e
  | Except.ok _ => Except.ok config

/-- `ConfigManager.get(path, default)`: dot-path lookup over the loaded
tree via `safe_get_nested` (the spec calls this entry point
`get_config`). -/
def config_manager_get (config : List (String × Value)) (path : String) (default : Value) :
    Value :=
  safe_get_nested config path default

/-! ## `dmr/storage/index_cache.py` — `ConversationIndexCache` -/

/-- The metadata record `_extract_metadata_from_file` builds per document.
`created_at` is carried verbatim; `updatedAt` is the epoch value that
`time.mktime(time.strptime(updated_at, ...))` would yield — the calendar
round-trip is order-preserving, so documents carry it as an integer in this
embedding. -/
structure Metadata where
  id : String
  title : String
  model : String
  createdAt : String
  updatedAt : Int
  tags : List String
  description : String
  messageCount : Nat
  deriving DecidableEq, Repr

/-- One `*.json` file of the storage directory as the cache sees it:
`name` is the file stem (the `.conversation_index.json` sidecar has stem
`.conversation_index`), `mtime` its modification time, and `content` the
result of `json.load` (`none` models a `JSONDecodeError`). -/
structure DocFile where
  name : String
  mtime : Nat
  content : Option Value

/-- Existence check plus `stat` for `storage_dir / f"{id}.json"` against the
directory listing. -/
def findFile (files : List DocFile) (id : String) : Option DocFile :=
  files.find? (fun f => f.name = id)

/-- The in-memory cache state: `_metadata_cache`, `_file_mtimes` and
`_last_scan_time`. -/
structure IndexState where
  metadataCache : List (String × Metadata)
  fileMtimes : List (String × Nat)
  lastScanTime : Nat

/-- `ConversationIndexCache._extract_metadata_from_file`: `none` models the
caught `JSONDecodeError` (unparseable content) and `KeyError` (a required
field absent). The modelled document space is well-typed: a document whose
fields are present but of the wrong shape would be copied verbatim by the
source and crash later in search or sort, and is outside this space. -/
def extract_metadata (content : Option Value) : Option Metadata :=
  match content with
  | none => none
  | some (Value.vDict data) =>
    match lookupKey data "id", lookupKey data "metadata" with
    | some (Value.vStr id), some (Value.vDict md) =>
      match lookupKey md "title", lookupKey md "model",
            lookupKey md "created_at", lookupKey md "updated_at" with
      | some (Value.vStr title), some (Value.vStr model),
        some (Value.vStr created), some (Value.vInt updated) =>
        some { id := id, title := title, model := model,
               createdAt := created, updatedAt := updated,
               tags :=
                 (match lookupKey md "tags" with
                  | some (Value.vList ts) =>
                    ts.filterMap (fun t =>
                      match t with
                      | Value.vStr s => some s
                      | _ => none)
                  | _ => []),
               description :=
                 (match lookupKey md "description" with
                  | some (Value.vStr s) => s
                  | _ => ""),
               messageCount :=
                 (match lookupKey data "messages" with
                  | some (Value.vList ms) => ms.length
                  | _ => 0) }
      | _, _, _, _ => none
    | _, _ => none
  | some _ => none

/-- Loop body of `_build_cache_from_files`: skip the sidecar, extract
metadata, and on success record the metadata and the file mtime together;
a file whose extraction fails is skipped and the loop continues. -/
def buildEntries : List DocFile → List (String × Metadata) × List (String × Nat) →
    List (String × Metadata) × List (String × Nat)
  | [], acc => acc
  | f :: rest, (mc, mt) =>
    buildEntries rest
      (if f.name = ".conversation_index" then (mc, mt)
       else
         match extract_metadata f.content with
         | some m => (insertKey mc f.name m, insertKey mt f.name f.mtime)
         | none => (mc, mt))

/-- `ConversationIndexCache._build_cache_from_files`: clear both maps,
scan the directory listing, and stamp `_last_scan_time` with the current
time. The sidecar save at the end is a side effect on disk and has no
bearing on the in-memory state. -/
def build_cache_from_files (files : List DocFile) (now : Nat) : IndexState :=
  let acc := buildEntries files ([], [])
  { metadataCache := acc.1, fileMtimes := acc.2, lastScanTime := now }

/-- `ConversationIndexCache._is_cache_stale`: first pass over the cached
mtimes (early exit on a deleted or newer file), then a directory listing
looking for a stem not yet cached. A pure predicate: it reads the state and
the directory and mutates nothing. -/
def is_cache_stale (files : List DocFile) (st : IndexState) : Bool :=
  (st.fileMtimes.any (fun e =>
    match findFile files e.1 with
    | some f => decide (e.2 < f.mtime)
    | none => true))
  || (files.any (fun f =>
    (!(f.name = ".conversation_index" : Bool)) && !(containsKey st.fileMtimes f.name)))

/-- `ConversationIndexCache._refresh_if_needed`: run the full staleness
check only when more than 30 seconds have passed since `_last_scan_time`,
and rebuild when it reports stale. -/
def refresh_if_needed (files : List DocFile) (st : IndexState) (now : Nat) : IndexState :=
  if 30 < now - st.lastScanTime then
    if is_cache_stale files st then build_cache_from_files files now else st
  else st

/-- The guard of `_refresh_if_needed` (index_cache.py line 301): the full
staleness check executes exactly when this timestamp comparison is true. -/
def staleness_check_runs (st : IndexState) (now : Nat) : Bool :=
  decide (30 < now - st.lastScanTime)

/-- `ConversationIndexCache.get_all_metadata`: staleness-bounded refresh,
then all records sorted by `updated_at` descending (Python `list.sort` is
stable; so is `List.mergeSort`). Returns the state after the refresh
together with the listing. -/
def get_all_metadata (files : List DocFile) (st : IndexState) (now : Nat) :
    IndexState × List Metadata :=
  let st2 := refresh_if_needed files st now
  (st2, (st2.metadataCache.map Prod.snd).mergeSort
    (fun a b => decide (b.updatedAt ≤ a.updatedAt)))

/-- The match test of `ConversationIndexCache.search_metadata`: the
lower-cased query is a substring of the lower-cased title, of the
lower-cased description, or of some lower-cased tag. -/
def record_matches (ql : String) (m : Metadata) : Bool :=
  strIn ql (pyLower m.title) || strIn ql (pyLower m.description)
    || m.tags.any (fun t => strIn ql (pyLower t))

/-- The total order induced by the sort key
`(not title_match, -mktime(strptime(updated_at)))` of `search_metadata`:
title matches first, ties by `updated_at` descending. -/
def search_le (ql : String) (a b : Metadata) : Bool :=
  let ta := strIn ql (pyLower a.title)
  let tb := strIn ql (pyLower b.title)
  if ta = tb then decide (b.updatedAt ≤ a.updatedAt) else ta

/-- `ConversationIndexCache.search_metadata(query)` on the metadata-only
path (`search_content=False`, the default): staleness-bounded refresh, keep
each cached record matching the lower-cased query once (the source appends
with `continue`), and sort with the stable sort under `search_le`. -/
def search_metadata (files : List DocFile) (st : IndexState) (now : Nat) (query : String) :
    IndexState × List Metadata :=
  let st2 := refresh_if_needed files st now
  let ql := pyLower query
  ((st2), ((st2.metadataCache.map Prod.snd).filter (record_matches ql)).mergeSort
    (search_le ql))

/-- `ConversationIndexCache.update_conversation_metadata(conv_id,
metadata)`: always write the record into `_metadata_cache`, but refresh
`_file_mtimes` only when the backing file currently exists on disk
(index_cache.py lines 275 to 277). -/
def update_conversation_metadata (files : List DocFile) (st : IndexState)
    (convId : String) (m : Metadata) : IndexState :=
  { st with
    metadataCache := insertKey st.metadataCache convId m,
    fileMtimes :=
      match findFile files convId with
      | some f => insertKey st.fileMtimes convId f.mtime
      | none => st.fileMtimes }

/-- `ConversationIndexCache.remove_conversation(conv_id)`: pop the id from
both maps. -/
def remove_conversation (st : IndexState) (convId : String) : IndexState :=
  { st with
    metadataCache := popKey st.metadataCache convId,
    fileMtimes := popKey st.fileMtimes convId }

end DMR

namespace DMR

/-! ## Association-list lemmas -/

theorem lookupKey_insertKey_self {α : Type} (d : List (String × α)) (k : String) (v : α) :
    lookupKey (insertKey d k v) k = some v := by
  induction d with
  | nil => simp [insertKey, lookupKey]
  | cons hd tl ih =>
    obtain ⟨k0, v0⟩ := hd
    by_cases h : k0 = k
    · simp [insertKey, lookupKey, if_pos h, h]
    · simp [insertKey, lookupKey, if_neg h, h, ih]

theorem lookupKey_insertKey_ne {α : Type} (d : List (String × α)) (k q : String) (v : α)
    (h : q ≠ k) : lookupKey (insertKey d k v) q = lookupKey d q := by
  induction d with
  | nil => simp [insertKey, lookupKey, Ne.symm h]
  | cons hd tl ih =>
    obtain ⟨k0, v0⟩ := hd
    simp only [insertKey]
    by_cases h0 : k0 = k
    · rw [if_pos h0]
      have hq : ¬ (k0 = q) := fun hh => h (hh.symm.trans h0)
      simp only [lookupKey, if_neg hq]
    · rw [if_neg h0]
      by_cases hq : k0 = q
      · simp only [lookupKey, if_pos hq]
      · simp only [lookupKey, if_neg hq, ih]

theorem lookupKey_eq_none_of_not_mem {α : Type} (d : List (String × α)) (q : String)
    (h : q ∉ d.map Prod.fst) : lookupKey d q = none := by
  induction d with
  | nil => rfl
  | cons hd tl ih =>
    obtain ⟨k0, v0⟩ := hd
    simp only [List.map_cons, List.mem_cons] at h
    push_neg at h
    have hk : ¬ (k0 = q) := fun hh => h.1 hh.symm
    simp only [lookupKey, if_neg hk]
    exact ih h.2

theorem containsKey_insertKey {α : Type} (d : List (String × α)) (k q : String) (v : α) :
    containsKey (insertKey d k v) q = true ↔ q = k ∨ containsKey d q = true := by
  by_cases h : q = k
  · subst h
    simp [containsKey, lookupKey_insertKey_self]
  · simp [containsKey, lookupKey_insertKey_ne d k q v h, h]

theorem containsKey_popKey_ne {α : Type} (d : List (String × α)) (k q : String) (h : q ≠ k) :
    containsKey (popKey d k) q = containsKey d q := by
  induction d with
  | nil => rfl
  | cons hd tl ih =>
    obtain ⟨k0, v0⟩ := hd
    simp only [popKey]
    by_cases h0 : k0 = k
    · rw [if_pos h0]
      have hq : ¬ (k0 = q) := fun hh => h (hh.symm.trans h0)
      simp only [containsKey, lookupKey, if_neg hq]
    · rw [if_neg h0]
      by_cases hq : k0 = q
      · simp only [containsKey, lookupKey, if_pos hq]
      · simp only [containsKey, lookupKey, if_neg hq]
        exact ih

theorem containsKey_popKey_self {α : Type} (d : List (String × α)) (k : String)
    (hnd : (d.map Prod.fst).Nodup) : containsKey (popKey d k) k = false := by
  induction d with
  | nil => rfl
  | cons hd tl ih =>
    obtain ⟨k0, v0⟩ := hd
    simp only [List.map_cons, List.nodup_cons] at hnd
    simp only [popKey]
    by_cases h0 : k0 = k
    · rw [if_pos h0]
      simp only [containsKey]
      rw [lookupKey_eq_none_of_not_mem tl k (h0 ▸ hnd.1)]
      rfl
    · rw [if_neg h0]
      simp only [containsKey, lookupKey, if_neg h0]
      exact ih hnd.2

/-! ## Claim C1 — configuration precedence scenario -/

/-- The default configuration file of the precedence scenario: it sets
`api.models.defaults.max_tokens` to `400`. -/
def scenarioDefaultFile : ConfigFile :=
  ConfigFile.parsed [("api", Value.vDict [("models", Value.vDict
    [("defaults", Value.vDict [("max_tokens", Value.vInt 400)])])])]

/-- The profile configuration file of the precedence scenario: it sets
`api.models.defaults.max_tokens` to `300`. -/
def scenarioProfileFile : ConfigFile :=
  ConfigFile.parsed [("api", Value.vDict [("models", Value.vDict
    [("defaults", Value.vDict [("max_tokens", Value.vInt 300)])])])]

/-- The environment of the precedence scenario: `DMR_MAX_TOKENS=200`. -/
def scenarioEnv : List (String × String) := [("DMR_MAX_TOKENS", "200")]

/-- The value `get_config(path)` observes after a successful
`load_config`, or `none` when the load fails. -/
def loadedGet (defaultFile profileFile : ConfigFile) (profile : String)
    (envOverrides : List (String × Value)) (path : String) : Option Value :=
  (load_config defaultFile profileFile profile envOverrides).toOption.map
    (fun t => config_manager_get t path (Value.vStr "absent"))

/-- C1, counterexample: in the precedence scenario (built-in 500, default
file 400, profile file 300, `DMR_MAX_TOKENS=200`), the loaded tree yields
`300` — not `200` — at `api.models.defaults.max_tokens`, because
`get_config_overrides` places the environment override at
`api.models.max_tokens` instead. -/
theorem config_precedence_counterexample :
    loadedGet scenarioDefaultFile scenarioProfileFile "perf"
      (get_config_overrides scenarioEnv) "api.models.defaults.max_tokens"
      = some (Value.vInt 300)
    ∧ some (Value.vInt 300) ≠ some (Value.vInt 200) := by
  constructor
  · rfl
  · simp

/-- C1, amended: with the environment variable present the call returns
`300` (the profile value), the environment override instead landing at
`api.models.max_tokens` as the raw string `"200"`; after removing the
environment variable (so that the override layer is empty once the
environment cache refreshes) and reloading, the call still returns
`300`. -/
theorem config_precedence_amended :
    loadedGet scenarioDefaultFile scenarioProfileFile "perf"
      (get_config_overrides scenarioEnv) "api.models.defaults.max_tokens"
      = some (Value.vInt 300)
    ∧ loadedGet scenarioDefaultFile scenarioProfileFile "perf"
      (get_config_overrides scenarioEnv) "api.models.max_tokens"
      = some (Value.vStr "200")
    ∧ loadedGet scenarioDefaultFile scenarioProfileFile "perf"
      (get_config_overrides []) "api.models.defaults.max_tokens"
      = some (Value.vInt 300) :=
  ⟨rfl, rfl, rfl⟩

/-! ## Claim C2 — records/mtimes invariant -/

/-- The spec invariant on `IndexState`: every id recorded in
`_metadata_cache` has an entry in `_file_mtimes`. -/
def MtimesInv (st : IndexState) : Prop :=
  ∀ id, containsKey st.metadataCache id = true → containsKey st.fileMtimes id = true

/-- A concrete metadata record used in counterexamples and witnesses. -/
def orphanRecord : Metadata :=
  { id := "orphan", title := "t", model := "m", createdAt := "c",
    updatedAt := 1, tags := [], description := "", messageCount := 0 }

/-- C2, counterexample: updating an id whose backing file does not exist on
disk inserts the record into `_metadata_cache` but leaves `_file_mtimes`
untouched, so the id ends up in the records map with no mtime entry. -/
theorem records_mtimes_invariant_counterexample :
    containsKey (update_conversation_metadata []
      { metadataCache := [], fileMtimes := [], lastScanTime := 0 }
      "orphan" orphanRecord).metadataCache "orphan" = true
    ∧ containsKey (update_conversation_metadata []
      { metadataCache := [], fileMtimes := [], lastScanTime := 0 }
      "orphan" orphanRecord).fileMtimes "orphan" = false :=
  ⟨rfl, rfl⟩

/-- Loop invariant for the rebuild: the build loop inserts a record and its
mtime together, so it preserves the records-have-mtimes property of the
accumulator. -/
theorem buildEntries_inv (files : List DocFile) :
    ∀ mc mt, (∀ id, containsKey mc id = true → containsKey mt id = true) →
    ∀ id, containsKey (buildEntries files (mc, mt)).1 id = true →
      containsKey (buildEntries files (mc, mt)).2 id = true := by
  induction files with
  | nil => intro mc mt h id; exact h id
  | cons f rest ih =>
    intro mc mt h id
    simp only [buildEntries]
    by_cases hs : f.name = ".conversation_index"
    · rw [if_pos hs]
      exact ih mc mt h id
    · rw [if_neg hs]
      cases hx : extract_metadata f.content with
      | none => exact ih mc mt h id
      | some m =>
        refine ih _ _ ?_ id
        intro j hj
        rcases (containsKey_insertKey mc f.name j m).mp hj with hjk | hjm
        · exact (containsKey_insertKey mt f.name j f.mtime).mpr (Or.inl hjk)
        · exact (containsKey_insertKey mt f.name j f.mtime).mpr (Or.inr (h j hjm))

/-- C2, amended: a full rebuild establishes the records-have-mtimes
invariant, and removal preserves it (on a state with duplicate-free keys,
as every state the source builds); the incremental update preserves it
exactly when the backing file exists on disk — for an id with no backing
file the record is inserted without an mtime entry. -/
theorem records_mtimes_invariant_amended :
    (∀ files now, MtimesInv (build_cache_from_files files now))
    ∧ (∀ st id, (st.metadataCache.map Prod.fst).Nodup → MtimesInv st →
        MtimesInv (remove_conversation st id))
    ∧ (∀ files st id m, MtimesInv st → (findFile files id).isSome = true →
        MtimesInv (update_conversation_metadata files st id m)) := by
  refine ⟨?_, ?_, ?_⟩
  · intro files now id h
    exact buildEntries_inv files [] [] (by intro j hj; cases hj) id h
  · intro st k hnd hinv id h
    simp only [remove_conversation] at h ⊢
    by_cases hik : id = k
    · rw [hik] at h
      rw [containsKey_popKey_self st.metadataCache k hnd] at h
      cases h
    · rw [containsKey_popKey_ne st.metadataCache k id hik] at h
      rw [containsKey_popKey_ne st.fileMtimes k id hik]
      exact hinv id h
  · intro files st k m hinv hex id h
    simp only [update_conversation_metadata] at h ⊢
    cases hf : findFile files k with
    | none => rw [hf] at hex; cases hex
    | some f =>
      show containsKey (insertKey st.fileMtimes k f.mtime) id = true
      rcases (containsKey_insertKey st.metadataCache k id m).mp h with hik | him
      · exact (containsKey_insertKey st.fileMtimes k id f.mtime).mpr (Or.inl hik)
      · exact (containsKey_insertKey st.fileMtimes k id f.mtime).mpr (Or.inr (hinv id him))

/-- C2, witness: the amended theorem applied to a concrete scenario — a
rebuild over one good file, a removal, and an update whose backing file
exists. -/
theorem records_mtimes_invariant_witness :
    MtimesInv (update_conversation_metadata
      [{ name := "orphan", mtime := 5, content := none }]
      { metadataCache := [], fileMtimes := [], lastScanTime := 0 }
      "orphan" orphanRecord) :=
  records_mtimes_invariant_amended.2.2
    [{ name := "orphan", mtime := 5, content := none }]
    { metadataCache := [], fileMtimes := [], lastScanTime := 0 }
    "orphan" orphanRecord (by intro id h; cases h) rfl

/-! ## Claim C3 — parse errors during config load -/

/-- C3: a profile file that exists but fails to parse makes
`ConfigParser.load_config_file` raise, yet `load_config` for that profile
succeeds anyway — `_get_cached_file_config` catches the error, the profile
is treated as absent, and the built-in defaults are returned. The parse
error is not surfaced to the caller of `load_config`. -/
theorem config_parse_error_swallowed :
    (load_config_file ConfigFile.invalid).isOk = false
    ∧ get_cached_file_config ConfigFile.invalid = none
    ∧ load_config ConfigFile.absent ConfigFile.invalid "corrupted"
        (get_config_overrides []) = Except.ok builtin_default_config :=
  ⟨rfl, rfl, rfl⟩

/-! ## Claim C4 — refresh throttling -/

/-- C4, counterexample: with `last_scan_time = 0` and an empty directory, a
read at `t = 31` runs the full staleness check, finds nothing stale, and
leaves the state (including `last_scan_time`) unchanged; a read at
`t = 32` — one second after that check — runs the full staleness check
again, because the throttle window is measured from the last rebuild, not
from the last check. -/
theorem refresh_throttle_counterexample :
    staleness_check_runs { metadataCache := [], fileMtimes := [], lastScanTime := 0 } 31 = true
    ∧ is_cache_stale [] { metadataCache := [], fileMtimes := [], lastScanTime := 0 } = false
    ∧ refresh_if_needed [] { metadataCache := [], fileMtimes := [], lastScanTime := 0 } 31
      = { metadataCache := [], fileMtimes := [], lastScanTime := 0 }
    ∧ (32 : Nat) - 31 ≤ 30
    ∧ staleness_check_runs
        (refresh_if_needed [] { metadataCache := [], fileMtimes := [], lastScanTime := 0 } 31)
        32 = true :=
  ⟨rfl, rfl, rfl, by omega, rfl⟩

/-- C4, amended: the full staleness check runs only when more than 30
seconds have elapsed since `last_scan_time`; `last_scan_time` advances only
when the check reports stale and a rebuild runs, and a check that finds
the directory unchanged leaves the state — and hence the throttle
window — untouched, so reads within 30 seconds of the last rebuild pay
only the timestamp comparison while reads later than that repeat the full
check even if the previous check found the directory unchanged. -/
theorem refresh_throttle_amended :
    (∀ files st now, ¬ (30 < now - st.lastScanTime) →
      refresh_if_needed files st now = st ∧ staleness_check_runs st now = false)
    ∧ (∀ files st now, 30 < now - st.lastScanTime → is_cache_stale files st = true →
      refresh_if_needed files st now = build_cache_from_files files now
        ∧ (refresh_if_needed files st now).lastScanTime = now)
    ∧ (∀ files st now, 30 < now - st.lastScanTime → is_cache_stale files st = false →
      refresh_if_needed files st now = st) := by
  refine ⟨?_, ?_, ?_⟩
  · intro files st now h
    constructor
    · simp only [refresh_if_needed, if_neg h]
    · simp only [staleness_check_runs, decide_eq_false_iff_not]
      exact h
  · intro files st now h hs
    have he : refresh_if_needed files st now = build_cache_from_files files now := by
      simp only [refresh_if_needed, if_pos h, hs, if_true]
    exact ⟨he, by rw [he]; rfl⟩
  · intro files st now h hs
    simp only [refresh_if_needed, if_pos h, hs]
    rfl

/-- C4, witness: the amended theorem applied at concrete states — a
throttled read at `t = 20`, and a clean check at `t = 31` that leaves the
state unchanged. -/
theorem refresh_throttle_witness :
    refresh_if_needed [] { metadataCache := [], fileMtimes := [], lastScanTime := 0 } 20
      = { metadataCache := [], fileMtimes := [], lastScanTime := 0 }
    ∧ refresh_if_needed [] { metadataCache := [], fileMtimes := [], lastScanTime := 0 } 31
      = { metadataCache := [], fileMtimes := [], lastScanTime := 0 } :=
  ⟨(refresh_throttle_amended.1 []
      { metadataCache := [], fileMtimes := [], lastScanTime := 0 } 20 (by decide)).1,
   refresh_throttle_amended.2.2 []
      { metadataCache := [], fileMtimes := [], lastScanTime := 0 } 31 (by decide) rfl⟩

/-! ## Claim C5 — the staleness predicate -/

/-- C5: `_is_cache_stale` is true exactly when some cached id has a deleted
file or a file whose current mtime strictly exceeds the cached value, or
every cached entry is current and the directory listing holds a document
file whose id is absent from the mtimes map. The function reads the state
and directory and mutates nothing (it is a plain function of both), and the
short-circuit structure of the two passes mirrors the early exits of the
source. -/
theorem is_cache_stale_spec (files : List DocFile) (st : IndexState) :
    is_cache_stale files st = true ↔
      (∃ e ∈ st.fileMtimes, findFile files e.1 = none
         ∨ ∃ f, findFile files e.1 = some f ∧ e.2 < f.mtime)
      ∨ ((∀ e ∈ st.fileMtimes, ∃ f, findFile files e.1 = some f ∧ f.mtime ≤ e.2)
         ∧ ∃ f ∈ files, f.name ≠ ".conversation_index"
             ∧ containsKey st.fileMtimes f.name = false) := by
  have hA : ∀ e : String × Nat,
      ((match findFile files e.1 with
        | some f => decide (e.2 < f.mtime)
        | none => true) = true)
      ↔ (findFile files e.1 = none ∨ ∃ f, findFile files e.1 = some f ∧ e.2 < f.mtime) := by
    intro e
    cases hf : findFile files e.1 with
    | none => simp
    | some f => simp
  have hB : ∀ f : DocFile,
      (((!(f.name = ".conversation_index" : Bool)) && !(containsKey st.fileMtimes f.name)) = true)
      ↔ (f.name ≠ ".conversation_index" ∧ containsKey st.fileMtimes f.name = false) := by
    intro f
    simp [Bool.and_eq_true]
  rw [is_cache_stale, Bool.or_eq_true, List.any_eq_true, List.any_eq_true]
  constructor
  · rintro (⟨e, he, hstale⟩ | ⟨f, hf, hnew⟩)
    · exact Or.inl ⟨e, he, (hA e).mp hstale⟩
    · by_cases hany : ∃ e ∈ st.fileMtimes, findFile files e.1 = none
          ∨ ∃ g, findFile files e.1 = some g ∧ e.2 < g.mtime
      · exact Or.inl hany
      · push_neg at hany
        refine Or.inr ⟨?_, f, hf, (hB f).mp hnew⟩
        intro e he
        rcases hany e he with ⟨hne, hlt⟩
        cases hg : findFile files e.1 with
        | none => exact absurd hg hne
        | some g => exact ⟨g, rfl, hlt g hg⟩
  · rintro (⟨e, he, hstale⟩ | ⟨_, f, hf, hnew⟩)
    · exact Or.inl ⟨e, he, (hA e).mpr hstale⟩
    · exact Or.inr ⟨f, hf, (hB f).mpr hnew⟩

/-! ## Claim C6 — deep-merge semantics -/

theorem mergeVal_dict_dict (bd od : List (String × Value)) :
    mergeVal (some (Value.vDict bd)) (Value.vDict od) = Value.vDict (merge_configs bd od) := rfl

theorem mergeVal_of_not_both_dict (o : Option Value) (v : Value)
    (h : ∀ bd od, o = some (Value.vDict bd) → v ≠ Value.vDict od) : mergeVal o v = v := by
  cases o with
  | none => cases v <;> rfl
  | some w =>
    cases w with
    | vStr s => cases v <;> rfl
    | vInt n => cases v <;> rfl
    | vFloat l => cases v <;> rfl
    | vBool b => cases v <;> rfl
    | vList l => cases v <;> rfl
    | vDict bd =>
      cases v with
      | vStr s => rfl
      | vInt n => rfl
      | vFloat l => rfl
      | vBool b => rfl
      | vList l => rfl
      | vDict od => exact absurd rfl (h bd od rfl)

theorem lookupKey_merge_configs (ov : List (String × Value)) :
    ∀ (base : List (String × Value)) (q : String), (ov.map Prod.fst).Nodup →
    lookupKey (merge_configs base ov) q =
      match lookupKey ov q with
      | some v => some (mergeVal (lookupKey base q) v)
      | none => lookupKey base q := by
  induction ov with
  | nil => intro base q _; rfl
  | cons hd rest ih =>
    obtain ⟨k, v⟩ := hd
    intro base q hnd
    simp only [List.map_cons, List.nodup_cons] at hnd
    show lookupKey (merge_configs (insertKey base k (mergeVal (lookupKey base k) v)) rest) q = _
    rw [ih _ q hnd.2]
    by_cases hq : q = k
    · subst hq
      rw [lookupKey_eq_none_of_not_mem rest q hnd.1]
      simp only [lookupKey, if_pos rfl]
      exact lookupKey_insertKey_self base q (mergeVal (lookupKey base q) v)
    · have hk : ¬ (k = q) := fun hh => hq hh.symm
      rw [lookupKey_insertKey_ne base k q _ hq]
      simp only [lookupKey, if_neg hk]

/-- C6: looking up any key in `merge_configs base ov` shows the deep-merge
rule — when both trees hold a dict at the key the sub-dicts are merged
recursively; when the override holds anything else there (or the base side
is not a dict) the override value replaces the base value whole; keys the
override does not mention keep their base value. The key lists of dicts
produced by the source are duplicate-free, hence the `Nodup` hypothesis. -/
theorem merge_configs_spec (base ov : List (String × Value)) (q : String)
    (hnd : (ov.map Prod.fst).Nodup) :
    (∀ bd od, lookupKey base q = some (Value.vDict bd) →
        lookupKey ov q = some (Value.vDict od) →
        lookupKey (merge_configs base ov) q = some (Value.vDict (merge_configs bd od)))
    ∧ (∀ v, lookupKey ov q = some v →
        (∀ bd od, lookupKey base q = some (Value.vDict bd) → v ≠ Value.vDict od) →
        lookupKey (merge_configs base ov) q = some v)
    ∧ (lookupKey ov q = none →
        lookupKey (merge_configs base ov) q = lookupKey base q) := by
  refine ⟨?_, ?_, ?_⟩
  · intro bd od hb ho
    rw [lookupKey_merge_configs ov base q hnd, ho, hb]
    rfl
  · intro v ho hno
    rw [lookupKey_merge_configs ov base q hnd, ho]
    show some (mergeVal (lookupKey base q) v) = some v
    rw [mergeVal_of_not_both_dict (lookupKey base q) v hno]
  · intro ho
    rw [lookupKey_merge_configs ov base q hnd, ho]

/-- C6, witness: the deep-merge rule applied at a concrete pair of trees
where both sides hold a dict at the key. -/
theorem merge_configs_spec_witness :
    lookupKey (merge_configs
        [("a", Value.vDict [("x", Value.vInt 1)]), ("s", Value.vInt 5)]
        [("a", Value.vDict [("y", Value.vInt 2)]), ("b", Value.vInt 3)]) "a"
      = some (Value.vDict (merge_configs [("x", Value.vInt 1)] [("y", Value.vInt 2)])) :=
  (merge_configs_spec
      [("a", Value.vDict [("x", Value.vInt 1)]), ("s", Value.vInt 5)]
      [("a", Value.vDict [("y", Value.vInt 2)]), ("b", Value.vInt 3)] "a"
      (by decide)).1
    [("x", Value.vInt 1)] [("y", Value.vInt 2)] rfl rfl

/-! ## Claim C7 — safe nested lookup -/

theorem traverseKeys_append (a : List String) : ∀ (v : Value) (b : List String),
    traverseKeys v (a ++ b) = (traverseKeys v a).bind (fun w => traverseKeys w b) := by
  induction a with
  | nil => intro v b; cases v <;> rfl
  | cons k ks ih =>
    intro v b
    cases v with
    | vStr s => rfl
    | vInt n => rfl
    | vFloat l => rfl
    | vBool bb => rfl
    | vList li => rfl
    | vDict d =>
      show traverseKeys (Value.vDict d) (k :: (ks ++ b)) = _
      simp only [traverseKeys]
      cases h : lookupKey d k with
      | some w => exact ih w b
      | none => rfl

/-- C7: `get(path, default)` traverses the tree segment by segment; if some
segment of the dotted path is missing from the dict reached at that point,
or the value reached at that point is not a dict at all, the call returns
the default; when the whole traversal succeeds it returns the reached
value. The function is total — a missing key yields the default, never an
error value. -/
theorem safe_get_nested_spec (data : List (String × Value)) (path : String) (default : Value) :
    (∀ pre k suf, pySplitDot path = pre ++ k :: suf →
      ∀ v, traverseKeys (Value.vDict data) pre = some v →
      (∀ d, v = Value.vDict d → lookupKey d k = none) →
      safe_get_nested data path default = default
        ∧ config_manager_get data path default = default)
    ∧ (∀ v, traverseKeys (Value.vDict data) (pySplitDot path) = some v →
        safe_get_nested data path default = v)
    ∧ (traverseKeys (Value.vDict data) (pySplitDot path) = none →
        safe_get_nested data path default = default) := by
  have hnone : ∀ h : traverseKeys (Value.vDict data) (pySplitDot path) = none,
      safe_get_nested data path default = default := by
    intro h
    simp only [safe_get_nested]
    rw [h]
  refine ⟨?_, ?_, hnone⟩
  · intro pre k suf hsplit v hv hmiss
    have ht : traverseKeys (Value.vDict data) (pySplitDot path) = none := by
      rw [hsplit, traverseKeys_append, hv]
      show traverseKeys v (k :: suf) = none
      cases v with
      | vStr s => rfl
      | vInt n => rfl
      | vFloat l => rfl
      | vBool bb => rfl
      | vList li => rfl
      | vDict d =>
        simp only [traverseKeys]
        rw [hmiss d rfl]
    exact ⟨hnone ht, hnone ht⟩
  · intro v h
    simp only [safe_get_nested]
    rw [h]

/-- C7, witness: a path whose second segment indexes a non-dict value (the
TypeError case) yields the default. -/
theorem safe_get_nested_spec_witness :
    safe_get_nested [("a", Value.vInt 1)] "a.b" (Value.vStr "dflt") = Value.vStr "dflt"
    ∧ config_manager_get [("a", Value.vInt 1)] "a.b" (Value.vStr "dflt") = Value.vStr "dflt" :=
  (safe_get_nested_spec [("a", Value.vInt 1)] "a.b" (Value.vStr "dflt")).1
    ["a"] "b" [] rfl (Value.vInt 1) rfl (fun _ h => Value.noConfusion h)

/-! ## Claim C8 — rebuild over partially corrupt directories -/

theorem insertKey_append_of_not_contains {α : Type} (d : List (String × α)) (k : String)
    (v : α) (h : containsKey d k = false) : insertKey d k v = d ++ [(k, v)] := by
  induction d with
  | nil => rfl
  | cons hd tl ih =>
    obtain ⟨k0, v0⟩ := hd
    simp only [containsKey, lookupKey] at h
    by_cases h0 : k0 = k
    · rw [if_pos h0] at h
      simp at h
    · rw [if_neg h0] at h
      simp only [insertKey, if_neg h0, List.cons_append]
      rw [ih h]

/-- The association list the rebuild loop leaves in `_metadata_cache`: one
entry per non-sidecar file whose metadata extraction succeeds, in directory
order. -/
def builtRecords (files : List DocFile) : List (String × Metadata) :=
  files.filterMap (fun f =>
    if f.name = ".conversation_index" then none
    else (extract_metadata f.content).map (fun m => (f.name, m)))

/-- The association list the rebuild loop leaves in `_file_mtimes`. -/
def builtMtimes (files : List DocFile) : List (String × Nat) :=
  files.filterMap (fun f =>
    if f.name = ".conversation_index" then none
    else (extract_metadata f.content).map (fun _ => (f.name, f.mtime)))

/-- The records of the documents that parse successfully, in directory
order. -/
def parsed_records (files : List DocFile) : List Metadata :=
  files.filterMap (fun f =>
    if f.name = ".conversation_index" then none else extract_metadata f.content)

theorem containsKey_append {α : Type} (a b : List (String × α)) (q : String) :
    containsKey (a ++ b) q = (containsKey a q || containsKey b q) := by
  induction a with
  | nil => rfl
  | cons hd tl ih =>
    obtain ⟨k0, v0⟩ := hd
    by_cases h0 : k0 = q
    · simp [containsKey, lookupKey, if_pos h0]
    · simp only [List.cons_append, containsKey, lookupKey, if_neg h0] at ih ⊢
      exact ih

theorem buildEntries_eq (files : List DocFile) :
    ∀ mc mt, (∀ f ∈ files, containsKey mc f.name = false) →
    (∀ f ∈ files, containsKey mt f.name = false) →
    (files.map DocFile.name).Nodup →
    buildEntries files (mc, mt) = (mc ++ builtRecords files, mt ++ builtMtimes files) := by
  induction files with
  | nil => intro mc mt _ _ _; simp [buildEntries, builtRecords, builtMtimes]
  | cons f rest ih =>
    intro mc mt hmc hmt hnd
    simp only [List.map_cons, List.nodup_cons] at hnd
    simp only [buildEntries]
    by_cases hs : f.name = ".conversation_index"
    · rw [if_pos hs]
      rw [ih mc mt (fun g hg => hmc g (List.mem_cons_of_mem f hg))
            (fun g hg => hmt g (List.mem_cons_of_mem f hg)) hnd.2]
      simp [builtRecords, builtMtimes, List.filterMap_cons, if_pos hs]
    · rw [if_neg hs]
      cases hx : extract_metadata f.content with
      | none =>
        rw [ih mc mt (fun g hg => hmc g (List.mem_cons_of_mem f hg))
              (fun g hg => hmt g (List.mem_cons_of_mem f hg)) hnd.2]
        simp [builtRecords, builtMtimes, List.filterMap_cons, if_neg hs, hx]
      | some m =>
        have hne : ∀ g, g ∈ rest → ¬ (f.name = g.name) := by
          intro g hg hh
          exact hnd.1 (hh ▸ List.mem_map_of_mem DocFile.name hg)
        have hmc2 : ∀ g ∈ rest, containsKey (insertKey mc f.name m) g.name = false := by
          intro g hg
          rw [insertKey_append_of_not_contains mc f.name m (hmc f (List.mem_cons_self f rest)),
              containsKey_append, hmc g (List.mem_cons_of_mem f hg)]
          simp only [Bool.false_or, containsKey, lookupKey, if_neg (hne g hg)]
          rfl
        have hmt2 : ∀ g ∈ rest, containsKey (insertKey mt f.name f.mtime) g.name = false := by
          intro g hg
          rw [insertKey_append_of_not_contains mt f.name f.mtime (hmt f (List.mem_cons_self f rest)),
              containsKey_append, hmt g (List.mem_cons_of_mem f hg)]
          simp only [Bool.false_or, containsKey, lookupKey, if_neg (hne g hg)]
          rfl
        rw [ih _ _ hmc2 hmt2 hnd.2]
        rw [insertKey_append_of_not_contains mc f.name m (hmc f (List.mem_cons_self f rest)),
            insertKey_append_of_not_contains mt f.name f.mtime (hmt f (List.mem_cons_self f rest))]
        simp [builtRecords, builtMtimes, List.filterMap_cons, if_neg hs, hx]

theorem map_snd_builtRecords (files : List DocFile) :
    (builtRecords files).map Prod.snd = parsed_records files := by
  induction files with
  | nil => rfl
  | cons f rest ih =>
    by_cases hs : f.name = ".conversation_index"
    · simp [builtRecords, parsed_records, List.filterMap_cons, if_pos hs] at ih ⊢
      exact ih
    · cases hx : extract_metadata f.content with
      | none =>
        simp [builtRecords, parsed_records, List.filterMap_cons, if_neg hs, hx] at ih ⊢
        exact ih
      | some m =>
        simp [builtRecords, parsed_records, List.filterMap_cons, if_neg hs, hx] at ih ⊢
        exact ih

theorem mem_name_of_containsKey_builtRecords (files : List DocFile) (q : String) :
    containsKey (builtRecords files) q = true → q ∈ files.map DocFile.name := by
  induction files with
  | nil => intro h; cases h
  | cons f rest ih =>
    intro h
    simp only [builtRecords, List.filterMap_cons] at h
    by_cases hs : f.name = ".conversation_index"
    · rw [if_pos hs] at h
      exact List.mem_cons_of_mem _ (ih h)
    · rw [if_neg hs] at h
      cases hx : extract_metadata f.content with
      | none =>
        rw [hx] at h
        exact List.mem_cons_of_mem _ (ih h)
      | some m =>
        rw [hx] at h
        simp only [Option.map_some, containsKey, lookupKey] at h
        by_cases hq : f.name = q
        · exact hq ▸ List.mem_cons_self _ _
        · rw [if_neg hq] at h
          exact List.mem_cons_of_mem _ (ih h)

theorem containsKey_builtRecords_of_corrupt (files : List DocFile)
    (hnd : (files.map DocFile.name).Nodup) :
    ∀ f ∈ files, extract_metadata f.content = none →
      containsKey (builtRecords files) f.name = false := by
  induction files with
  | nil => intro f hf; cases hf
  | cons g rest ih =>
    intro f hf hnone
    simp only [List.map_cons, List.nodup_cons] at hnd
    simp only [builtRecords, List.filterMap_cons]
    rcases List.mem_cons.mp hf with hfg | hfr
    · subst hfg
      have hdrop : (if f.name = ".conversation_index" then none
          else (extract_metadata f.content).map (fun m => (f.name, m))) = none := by
        by_cases hs : f.name = ".conversation_index"
        · rw [if_pos hs]
        · rw [if_neg hs, hnone]; rfl
      rw [hdrop]
      show containsKey (builtRecords rest) f.name = false
      cases hck : containsKey (builtRecords rest) f.name with
      | false => rfl
      | true => exact absurd (mem_name_of_containsKey_builtRecords rest f.name hck) hnd.1
    · have hgf : ¬ (g.name = f.name) := by
        intro hh
        exact hnd.1 (hh ▸ List.mem_map_of_mem DocFile.name hfr)
      by_cases hs : g.name = ".conversation_index"
      · rw [if_pos hs]
        show containsKey (builtRecords rest) f.name = false
        exact ih hnd.2 f hfr hnone
      · rw [if_neg hs]
        cases hx : extract_metadata g.content with
        | none =>
          show containsKey (builtRecords rest) f.name = false
          exact ih hnd.2 f hfr hnone
        | some m =>
          show containsKey ((g.name, m) :: builtRecords rest) f.name = false
          simp only [containsKey, lookupKey, if_neg hgf]
          exact ih hnd.2 f hfr hnone

/-- C8: a full rebuild over a directory in which some documents parse and
some do not skips every failing file and keeps going — the resulting
records map is exactly one entry per successfully parsed non-sidecar
document (in directory order), every corrupt id is absent, and the listing
that `get_all_metadata` returns right after the rebuild is a permutation of
the successfully parsed records. The rebuild itself is a total function:
no input directory makes it fail. -/
theorem rebuild_skips_corrupt (files : List DocFile) (now : Nat)
    (hnd : (files.map DocFile.name).Nodup) :
    (build_cache_from_files files now).metadataCache = builtRecords files
    ∧ ((build_cache_from_files files now).metadataCache.map Prod.snd = parsed_records files)
    ∧ (∀ f ∈ files, extract_metadata f.content = none →
        containsKey (build_cache_from_files files now).metadataCache f.name = false)
    ∧ ((get_all_metadata files (build_cache_from_files files now) now).2).Perm
        (parsed_records files) := by
  have hmc : (build_cache_from_files files now).metadataCache = builtRecords files := by
    show (buildEntries files ([], [])).1 = builtRecords files
    rw [buildEntries_eq files [] [] (fun f _ => rfl) (fun f _ => rfl) hnd]
    simp
  have hfresh : refresh_if_needed files (build_cache_from_files files now) now
      = build_cache_from_files files now := by
    simp only [refresh_if_needed]
    rw [if_neg]
    show ¬ (30 < now - (build_cache_from_files files now).lastScanTime)
    show ¬ (30 < now - now)
    simp [Nat.sub_self]
  refine ⟨hmc, ?_, ?_, ?_⟩
  · rw [hmc, map_snd_builtRecords]
  · intro f hf hnone
    rw [hmc]
    exact containsKey_builtRecords_of_corrupt files hnd f hf hnone
  · show ((refresh_if_needed files (build_cache_from_files files now) now).metadataCache.map
        Prod.snd).mergeSort (fun a b => decide (b.updatedAt ≤ a.updatedAt))
      |>.Perm (parsed_records files)
    rw [hfresh, hmc, map_snd_builtRecords]
    exact List.mergeSort_perm (parsed_records files) _

/-- A well-formed conversation document with the given id and update
timestamp. -/
def mkDocContent (id : String) (ts : Int) : Value :=
  Value.vDict
    [("id", Value.vStr id),
     ("metadata", Value.vDict
       [("title", Value.vStr id),
        ("model", Value.vStr "ai/gemma3"),
        ("created_at", Value.vStr "2024-01-01T00:00:00.000000"),
        ("updated_at", Value.vInt ts)]),
     ("messages", Value.vList [])]

/-- A directory of nine valid conversation documents and one file whose
content does not parse as JSON. -/
def exampleTenDir : List DocFile :=
  [{ name := "c1", mtime := 1, content := some (mkDocContent "c1" 1) },
   { name := "c2", mtime := 2, content := some (mkDocContent "c2" 2) },
   { name := "c3", mtime := 3, content := some (mkDocContent "c3" 3) },
   { name := "c4", mtime := 4, content := some (mkDocContent "c4" 4) },
   { name := "c5", mtime := 5, content := some (mkDocContent "c5" 5) },
   { name := "c6", mtime := 6, content := some (mkDocContent "c6" 6) },
   { name := "c7", mtime := 7, content := some (mkDocContent "c7" 7) },
   { name := "c8", mtime := 8, content := some (mkDocContent "c8" 8) },
   { name := "c9", mtime := 9, content := some (mkDocContent "c9" 9) },
   { name := "corrupt", mtime := 10, content := none }]

/-- C8, witness: over the nine-valid-one-corrupt directory the listing has
length 9 and the corrupt id is absent. -/
theorem rebuild_skips_corrupt_witness :
    (get_all_metadata exampleTenDir (build_cache_from_files exampleTenDir 100) 100).2.length = 9
    ∧ containsKey (build_cache_from_files exampleTenDir 100).metadataCache "corrupt" = false := by
  have h := rebuild_skips_corrupt exampleTenDir 100 (by decide)
  constructor
  · rw [h.2.2.2.length_eq]
    rfl
  · exact h.2.2.1 { name := "corrupt", mtime := 10, content := none }
      (by repeat first | exact List.Mem.head _ | apply List.Mem.tail) rfl

/-! ## Claim C9 — search semantics -/

theorem infixOf_iff (n : List Char) : ∀ h : List Char, infixOf n h = true ↔ n.IsInfix h := by
  intro h
  induction h with
  | nil =>
    simp only [infixOf, List.isEmpty_iff]
    constructor
    · intro hh; rw [hh]
    · intro hh; exact List.eq_nil_of_infix_nil hh
  | cons c rest ih =>
    simp only [infixOf, Bool.or_eq_true, List.isPrefixOf_iff_prefix, ih]
    exact (List.infix_cons_iff).symm

theorem search_le_total (ql : String) (a b : Metadata) :
    (search_le ql a b || search_le ql b a) = true := by
  simp only [search_le]
  by_cases h : strIn ql (pyLower a.title) = strIn ql (pyLower b.title)
  · rw [if_pos h, if_pos h.symm]
    rcases Int.le_total b.updatedAt a.updatedAt with hle | hle
    · simp [hle]
    · simp [hle]
  · rw [if_neg h, if_neg (fun hh => h hh.symm)]
    cases ha : strIn ql (pyLower a.title) with
    | true => simp
    | false =>
      cases hb : strIn ql (pyLower b.title) with
      | true => simp
      | false => exact absurd (ha.trans hb.symm) h

theorem search_le_trans (ql : String) (a b c : Metadata)
    (hab : search_le ql a b = true) (hbc : search_le ql b c = true) :
    search_le ql a c = true := by
  simp only [search_le] at hab hbc ⊢
  by_cases h1 : strIn ql (pyLower a.title) = strIn ql (pyLower b.title)
  · by_cases h2 : strIn ql (pyLower b.title) = strIn ql (pyLower c.title)
    · rw [if_pos h1] at hab
      rw [if_pos h2] at hbc
      rw [if_pos (h1.trans h2)]
      exact decide_eq_true (Int.le_trans (of_decide_eq_true hbc) (of_decide_eq_true hab))
    · have h3 : ¬ (strIn ql (pyLower a.title) = strIn ql (pyLower c.title)) :=
        fun hh => h2 (h1.symm.trans hh)
      rw [if_neg h2] at hbc
      rw [if_neg h3, h1]
      exact hbc
  · rw [if_neg h1] at hab
    by_cases h2 : strIn ql (pyLower b.title) = strIn ql (pyLower c.title)
    · have h3 : ¬ (strIn ql (pyLower a.title) = strIn ql (pyLower c.title)) :=
        fun hh => h1 (hh.trans h2.symm)
      rw [if_neg h3]
      exact hab
    · rw [if_neg h2] at hbc
      exact absurd (hab.trans hbc.symm) h1

theorem search_le_cases (ql : String) (a b : Metadata) (h : search_le ql a b = true) :
    (strIn ql (pyLower a.title) = true ∧ strIn ql (pyLower b.title) = false)
    ∨ (strIn ql (pyLower a.title) = strIn ql (pyLower b.title)
        ∧ b.updatedAt ≤ a.updatedAt) := by
  simp only [search_le] at h
  by_cases h1 : strIn ql (pyLower a.title) = strIn ql (pyLower b.title)
  · rw [if_pos h1] at h
    exact Or.inr ⟨h1, of_decide_eq_true h⟩
  · rw [if_neg h1] at h
    refine Or.inl ⟨h, ?_⟩
    cases hb : strIn ql (pyLower b.title) with
    | false => rfl
    | true => exact absurd (h.trans hb.symm) h1

/-- C9: `search_metadata(query)` returns, up to its documented ordering,
exactly the cached records (after the staleness-bounded refresh) for which
the lower-cased query is a substring of the lower-cased title, description
or some tag; the returned sequence is pairwise ordered so that a record
whose title matches never follows one that matches only on description or
tags, and records with the same title-match status appear with
`updated_at` descending. -/
theorem search_metadata_spec (files : List DocFile) (st : IndexState) (now : Nat)
    (query : String) :
    ((search_metadata files st now query).2).Perm
      (((refresh_if_needed files st now).metadataCache.map Prod.snd).filter
        (record_matches (pyLower query)))
    ∧ (∀ m : Metadata, record_matches (pyLower query) m = true ↔
        (List.IsInfix (pyLower query).data (pyLower m.title).data
         ∨ List.IsInfix (pyLower query).data (pyLower m.description).data
         ∨ ∃ t ∈ m.tags, List.IsInfix (pyLower query).data (pyLower t).data))
    ∧ ((search_metadata files st now query).2).Pairwise (fun a b =>
        (strIn (pyLower query) (pyLower a.title) = true
          ∧ strIn (pyLower query) (pyLower b.title) = false)
        ∨ (strIn (pyLower query) (pyLower a.title) = strIn (pyLower query) (pyLower b.title)
          ∧ b.updatedAt ≤ a.updatedAt)) := by
  refine ⟨?_, ?_, ?_⟩
  · show ((((refresh_if_needed files st now).metadataCache.map Prod.snd).filter
        (record_matches (pyLower query))).mergeSort (search_le (pyLower query))).Perm _
    exact List.mergeSort_perm _ _
  · intro m
    simp only [record_matches, Bool.or_eq_true, strIn, infixOf_iff, List.any_eq_true]
    exact or_assoc
  · show ((((refresh_if_needed files st now).metadataCache.map Prod.snd).filter
        (record_matches (pyLower query))).mergeSort (search_le (pyLower query))).Pairwise _
    exact (List.sorted_mergeSort
        (fun a b c => search_le_trans (pyLower query) a b c)
        (fun a b => search_le_total (pyLower query) a b) _).imp
      (fun h => search_le_cases (pyLower query) _ _ h)

/-! ## Claim C10 — environment values stay raw strings -/

theorem loadEnvVarsAux_values (env : List (String × String)) :
    ∀ (acc : List (String × Value)) (k : String) (v : Value),
    lookupKey (loadEnvVarsAux acc env) k = some v →
    lookupKey acc k = some v
    ∨ ∃ pk raw, (pk, raw) ∈ env ∧ pyStartsWith pk "DMR_" = true ∧ v = Value.vStr raw := by
  induction env with
  | nil => intro acc k v h; exact Or.inl h
  | cons hd rest ih =>
    obtain ⟨pk, raw⟩ := hd
    intro acc k v h
    simp only [loadEnvVarsAux] at h
    by_cases hp : pyStartsWith pk "DMR_"
    · rw [if_pos hp] at h
      rcases ih _ k v h with hacc | ⟨qk, qraw, hqm, hqp, hqv⟩
      · by_cases hk : k = pyLower (pyDrop pk 4)
        · subst hk
          rw [lookupKey_insertKey_self] at hacc
          refine Or.inr ⟨pk, raw, List.mem_cons_self _ _, hp, ?_⟩
          cases hacc
          rfl
        · rw [lookupKey_insertKey_ne _ _ _ _ hk] at hacc
          exact Or.inl hacc
      · exact Or.inr ⟨qk, qraw, List.mem_cons_of_mem _ hqm, hqp, hqv⟩
    · rw [if_neg hp] at h
      rcases ih _ k v h with hacc | ⟨qk, qraw, hqm, hqp, hqv⟩
      · exact Or.inl hacc
      · exact Or.inr ⟨qk, qraw, List.mem_cons_of_mem _ hqm, hqp, hqv⟩

/-- C10: `_convert_env_value` with the default target type `str` returns
its input unchanged; consequently every value `load_env_vars` stores — and
hence every leaf `get_config_overrides` places into the override tree — is
the raw environment string. Concretely, `DMR_MAX_TOKENS=200` contributes
the string `"200"` at `api.models.max_tokens`, not the integer `200`. -/
theorem env_overrides_raw_strings :
    (∀ v : String, convert_env_value v PyType.tStr = Value.vStr v)
    ∧ (∀ (env : List (String × String)) (k : String) (v : Value),
        lookupKey (load_env_vars env) k = some v →
        ∃ pk raw, (pk, raw) ∈ env ∧ pyStartsWith pk "DMR_" = true ∧ v = Value.vStr raw)
    ∧ traverseKeys (Value.vDict (get_config_overrides [("DMR_MAX_TOKENS", "200")]))
        ["api", "models", "max_tokens"] = some (Value.vStr "200") := by
  refine ⟨fun v => rfl, ?_, rfl⟩
  intro env k v h
  rcases loadEnvVarsAux_values env [] k v h with hacc | hex
  · cases hacc
  · exact hex

/-- C10, witness: the general statement applied to the concrete environment
`DMR_MAX_TOKENS=200`. -/
theorem env_overrides_raw_strings_witness :
    ∃ pk raw, (pk, raw) ∈ [("DMR_MAX_TOKENS", "200")]
      ∧ pyStartsWith pk "DMR_" = true ∧ Value.vStr "200" = Value.vStr raw :=
  env_overrides_raw_strings.2.1 [("DMR_MAX_TOKENS", "200")] "max_tokens"
    (Value.vStr "200") rfl

end DMR
